import Mathlib

/-!
Verification development for the single-file vocabulary-tracker program
(`ssc_tracker.py`).  The Python program is shallowly embedded: documents of
the remote "vocabulary_master" collection become an association list from the
word key to an `Entry` record, the Streamlit session state becomes an explicit
`SessionState` record, and the random choices of the quiz engine are
parameterised by natural-number seeds (a seed selects one concrete outcome of
`random.sample` / `random.choice` / `random.shuffle`).

Python string primitives (`strip`, `split`, `join`, `lower`) are modelled by
structurally recursive functions over the character list of a `String`, so
that every definition evaluates inside the kernel.  `strip` removes the ASCII
whitespace characters that Python's `str.strip()` removes.
-/

namespace SSC

/-- ASCII whitespace, as stripped by Python's `str.strip()`. -/
def pyIsSpace (c : Char) : Bool :=
  c == ' ' || c == '\t' || c == '\n' || c == '\r' || c == '\x0b' || c == '\x0c'

/-- Strip whitespace from both ends of a character list (`str.strip()`). -/
def stripChars (l : List Char) : List Char :=
  ((l.dropWhile pyIsSpace).reverse.dropWhile pyIsSpace).reverse

/-- Python `s.strip()`. -/
def pyStrip (s : String) : String := String.mk (stripChars s.data)

/-- Python `s.split(sep)` for a one-character separator, on character lists.
`"".split(c) = [""]`, and consecutive separators yield empty fields, exactly
as in Python. -/
def splitCharList (sep : Char) : List Char → List (List Char)
  | [] => [[]]
  | c :: rest =>
    if c = sep then [] :: splitCharList sep rest
    else
      match splitCharList sep rest with
      | [] => [[c]]
      | h :: t => (c :: h) :: t

/-- Python `s.split(sep)` for a one-character separator. -/
def pySplitChar (sep : Char) (s : String) : List String :=
  (splitCharList sep s.data).map String.mk

/-- Python `sep.join(parts)`. -/
def pyJoin (sep : String) : List String → String
  | [] => ""
  | [x] => x
  | x :: xs => x ++ sep ++ pyJoin sep xs

/-- Python `s.lower()` (ASCII letters, which is all the program's data uses). -/
def pyLower (s : String) : String := String.mk (s.data.map Char.toLower)

/-- Lexicographic comparison of character lists by code point: the order
Python's `sorted` uses on strings.  `pyLeCharList xs ys` means `xs ≤ ys`. -/
def pyLeCharList : List Char → List Char → Bool
  | [], _ => true
  | _ :: _, [] => false
  | a :: xs, b :: ys =>
    if a.toNat < b.toNat then true
    else if b.toNat < a.toNat then false
    else pyLeCharList xs ys

/-- Python string `≤` by code points. -/
def pyLe (s t : String) : Bool := pyLeCharList s.data t.data

/-- The first characters of `s` up to (excluding) the first occurrence of
`sep`; the whole of `s` if `sep` does not occur.  Used to state claim C3's
"the part of the cell before the first parenthesis". -/
def beforeFirst (sep : Char) (s : String) : String :=
  String.mk (s.data.takeWhile (fun c => ¬ (c = sep)))

/-- The two quiz variants of the later generation: "OWS Quiz (Sets of 25)"
and "Synonym Quiz (Sets of 25)"; `quiz_type = "ows" if "OWS" in menu else
"syno"`. -/
inductive QuizType
  | ows
  | syno
deriving DecidableEq

/-- One document of the "vocabulary_master" collection, with the exact field
set written by the importer's `doc_ref.set` call. -/
structure Entry where
  word_text : String
  english_meaning : String
  synonyms : String
  correct_attempts : Nat
  total_attempts : Nat
  ows_attempted : Bool
  syno_attempted : Bool
deriving DecidableEq

instance : Inhabited Entry := ⟨⟨"", "", "", 0, 0, false, false⟩⟩

/-- The collection: documents keyed by word text, in stream order. -/
abbrev Store := List (String × Entry)

/-- The dynamic field name `f"{quiz_type}_attempted"` read back as a field of
`Entry`: `ows_attempted` or `syno_attempted`. -/
def attemptedFlag (q : QuizType) (e : Entry) : Bool :=
  match q with
  | .ows => e.ows_attempted
  | .syno => e.syno_attempted

/-- The new field values computed by `update_score` for an existing document:
`new_total = total_attempts + 1`, `new_correct = correct_attempts +
(1 if is_correct else 0)`, and `{quiz_type}_attempted = True`. -/
def recordAnswer (is_correct : Bool) (q : QuizType) (e : Entry) : Entry :=
  { e with
    total_attempts := e.total_attempts + 1
    correct_attempts := e.correct_attempts + (if is_correct then 1 else 0)
    ows_attempted := if q = .ows then true else e.ows_attempted
    syno_attempted := if q = .syno then true else e.syno_attempted }

/-- `update_score(word_text, is_correct, quiz_type)`: fetch the document; if
it exists, write the incremented counters and the attempted flag; if not,
do nothing. -/
def update_score (db : Store) (word_text : String) (is_correct : Bool)
    (q : QuizType) : Store :=
  match db.lookup word_text with
  | none => db
  | some _ =>
    db.map fun kv =>
      if kv.1 = word_text then (kv.1, recordAnswer is_correct q kv.2) else kv

/-- A sequence of recorded answers applied to one entry
(each element: correctness flag and quiz type). -/
def recordMany (l : List (Bool × QuizType)) (e : Entry) : Entry :=
  l.foldl (fun acc cq => recordAnswer cq.1 cq.2 acc) e

/-- One extracted table row: the list of its cells (`str(...)` applied). -/
abbrev Row := List String

/-- The word and the two text fields parsed out of an accepted row. -/
structure ParsedRow where
  word_clean : String
  synonyms : String
  english_meaning : String
deriving DecidableEq

/-- The synonyms/english-meaning split of the (already stripped) meaning
cell: `parts = meaning_raw.split('\n')`; with at least 2 parts,
`(parts[0].strip(), " ".join(parts[1:]).strip())`, otherwise
`("No synonyms provided", meaning_raw.strip())`. -/
def splitMeaning (meaning_raw : String) : String × String :=
  if 2 ≤ (pySplitChar '\n' meaning_raw).length then
    (pyStrip ((pySplitChar '\n' meaning_raw).headD ""),
      pyStrip (pyJoin " " (pySplitChar '\n' meaning_raw).tail))
  else ("No synonyms provided", pyStrip meaning_raw)

/-- The per-row filtering and parsing of the import loop:
`none` for a skipped row (`len(row) < 3`, empty stripped second cell, or the
literal header text), otherwise the cleaned word
`word_raw.split('(')[0].strip()` (with `word_raw = str(row[1]).strip()`)
together with the `splitMeaning` fields of `meaning_raw =
str(row[2]).strip()`. -/
def parseRow (row : Row) : Option ParsedRow :=
  if row.length < 3 then none
  else if pyStrip (row.getD 1 "") = "" ∨ pyStrip (row.getD 1 "") = "Word (POS)"
  then none
  else
    some ⟨pyStrip ((pySplitChar '(' (pyStrip (row.getD 1 ""))).headD ""),
      (splitMeaning (pyStrip (row.getD 2 ""))).1,
      (splitMeaning (pyStrip (row.getD 2 ""))).2⟩

/-- The document written by `doc_ref.set({...})` for a newly imported word. -/
def newEntry (p : ParsedRow) : Entry :=
  { word_text := p.word_clean
    english_meaning := p.english_meaning
    synonyms := p.synonyms
    correct_attempts := 0
    total_attempts := 0
    ows_attempted := false
    syno_attempted := false }

/-- Processing of one table row against the store: skipped rows and words
already present leave the store alone and contribute 0 to `added_count`;
an absent word is written and contributes 1. -/
def processRow (store : Store) (row : Row) : Store × Nat :=
  match parseRow row with
  | none => (store, 0)
  | some p =>
    match store.lookup p.word_clean with
    | some _ => (store, 0)
    | none => (store ++ [(p.word_clean, newEntry p)], 1)

/-- The import loop over a list of data rows, threading the store and summing
the `added_count` contributions in order. -/
def importFold : List Row → Store → Store × Nat
  | [], store => (store, 0)
  | row :: rest, store =>
    let sc := processRow store row
    let rc := importFold rest sc.1
    (rc.1, sc.2 + rc.2)

/-- One page's table: `if not table: continue`, else process `table[1:]`
(the header row is skipped). -/
def importTable (table : List Row) (store : Store) : Store × Nat :=
  if table.isEmpty then (store, 0) else importFold table.tail store

/-- The whole upload: pages in order, each contributing its table (an empty
list standing for a page with no extractable table). -/
def importPDF : List (List Row) → Store → Store × Nat
  | [], store => (store, 0)
  | table :: rest, store =>
    let sc := importTable table store
    let rc := importPDF rest sc.1
    (rc.1, sc.2 + rc.2)

/-- The case-insensitive sort key comparison used by `fetch_all_words`:
`key=lambda x: x['word_text'].lower()`. -/
def wordLe (a b : Entry) : Bool :=
  pyLe (pyLower a.word_text) (pyLower b.word_text)

/-- `fetch_all_words()`: every document of the collection, sorted
alphabetically case-insensitively by `word_text`. -/
def fetch_all_words (store : Store) : List Entry :=
  (store.map Prod.snd).mergeSort wordLe

/-- `sets = [all_words[i:i + 25] for i in range(0, len(all_words), 25)]`:
contiguous chunks of 25, the last possibly shorter. -/
def chunks25 : List Entry → List (List Entry)
  | [] => []
  | l@(_ :: _) => l.take 25 :: chunks25 (l.drop 25)
termination_by l => l.length
decreasing_by
  simp_all [List.length_drop]
  omega

/-- The status text of one practice set:
`"✅ Attempted" if all(w.get(f'{quiz_type}_attempted', False) for w in s)
else "⏳ Pending"`. -/
def setStatus (q : QuizType) (s : List Entry) : String :=
  if s.all (fun w => attemptedFlag q w) then "✅ Attempted" else "⏳ Pending"

/-- The dropdown label of chunk `i` (zero-based):
`f"Set {i+1}: {start_word} to {end_word} [{status}]"`. -/
def setLabel (q : QuizType) (i : Nat) (s : List Entry) : String :=
  "Set " ++ toString (i + 1) ++ ": " ++ (s.headD default).word_text ++
    " to " ++ (s.getLastD default).word_text ++ " [" ++ setStatus q s ++ "]"

/-- The set label exactly as claim C4 words it: same shape, but with the bare
status literals "Attempted" / "Pending".  Modelled from the claim's words,
for comparison with `setLabel`. -/
def claimSetLabel (q : QuizType) (i : Nat) (s : List Entry) : String :=
  "Set " ++ toString (i + 1) ++ ": " ++ (s.headD default).word_text ++
    " to " ++ (s.getLastD default).word_text ++ " [" ++
    (if s.all (fun w => attemptedFlag q w) then "Attempted" else "Pending") ++
    "]"

/-- Turning off one entry's attempted flag for the given quiz type (the
hypothetical flip of claim C4). -/
def clearFlag (q : QuizType) (e : Entry) : Entry :=
  match q with
  | .ows => { e with ows_attempted := false }
  | .syno => { e with syno_attempted := false }

/-- `syn_list = [s.strip() for s in q_data.get('synonyms', '').split(',')
if s.strip()]`. -/
def synListStr (s : String) : List String :=
  ((pySplitChar ',' s).map pyStrip).filter (fun x => ¬ (x = ""))

/-- The comma-split, stripped, nonempty-filtered synonym list of an entry. -/
def synList (e : Entry) : List String := synListStr e.synonyms

/-- The synonym-quiz correct answer: `random.choice(syn_list) if syn_list and
syn_list[0] != "No synonyms provided" else q_data.get('english_meaning', ...)`.
The random choice is modelled by the seed `r`, selecting index
`r % syn_list.length`. -/
def synCorrectAns (r : Nat) (e : Entry) : String :=
  if synList e ≠ [] ∧ ¬ ((synList e).headD "" = "No synonyms provided") then
    (synList e).getD (r % (synList e).length) ""
  else e.english_meaning

/-- One outcome of `random.sample(pool, k)`: `k` distinct positions of the
pool (a rotation followed by a prefix), modelling sampling without
replacement; the seed selects the outcome. -/
def sample (seed : Nat) (pool : List String) (k : Nat) : List String :=
  (pool.rotate seed).take k

/-- `while len(decoys) < 3: decoys.append("None of the above")`. -/
def padDecoys (decoys : List String) : List String :=
  decoys ++ List.replicate (3 - decoys.length) "None of the above"

/-- The option list built for one question: sample `min(len(pool), 3)`
decoys, pad to 3 with the literal, append the correct answer, shuffle
(one shuffle outcome selected by `seed2`). -/
def genOptions (seed1 seed2 : Nat) (pool : List String)
    (correct_ans : String) : List String :=
  let decoys := padDecoys (sample seed1 pool (min pool.length 3))
  (decoys ++ [correct_ans]).rotate seed2

/-- The quiz-session keys of `st.session_state` used by the set-based
engine.  `options_generated_for = none` models the key being absent. -/
structure SessionState where
  active_set_label : String
  current_index : Nat
  answered : Bool
  selected_option : Option String
  current_options : List String
  correct_ans : String
  options_generated_for : Option Nat
deriving DecidableEq

/-- The guarded option generation:
`if 'options_generated_for' not in st.session_state or
st.session_state.options_generated_for != st.session_state.current_index:`
regenerate and cache, else leave the session state untouched. -/
def maybeGenOptions (seed1 seed2 : Nat) (pool : List String)
    (correct_ans : String) (st : SessionState) : SessionState :=
  let regen :=
    { st with
      current_options := genOptions seed1 seed2 pool correct_ans
      correct_ans := correct_ans
      options_generated_for := some st.current_index }
  match st.options_generated_for with
  | none => regen
  | some i => if i = st.current_index then st else regen

/-- The set-switch reset:
`if ... st.session_state.active_set_label != selected_set_label:` set the
active label, `current_index = 0`, `answered = False` — and nothing else. -/
def switchSet (selected_set_label : String) (st : SessionState) :
    SessionState :=
  if ¬ (st.active_set_label = selected_set_label) then
    { st with
      active_set_label := selected_set_label
      current_index := 0
      answered := false }
  else st

/-- The "🔄 Reattempt this Set" button: `current_index = 0`,
`answered = False` — and nothing else. -/
def reattemptSet (st : SessionState) : SessionState :=
  { st with current_index := 0, answered := false }

/-- The synonyms/english-meaning split exactly as claim C3 words it: first
raw part of the newline-split cell as synonyms, remaining parts rejoined
with spaces as meaning (no whitespace stripping in that branch).  Modelled
from the claim's words, for comparison with `parseRow`. -/
def claimSplitMeaning (cell : String) : String × String :=
  let parts := pySplitChar '\n' cell
  if 2 ≤ parts.length then (parts.headD "", pyJoin " " parts.tail)
  else ("No synonyms provided", pyStrip cell)

/-- Every key a row of the given store resolves: the row is either rejected
by the filters or parses to a word already present. -/
def coveredRow (store : Store) (row : Row) : Prop :=
  ∀ p, parseRow row = some p → (store.lookup p.word_clean).isSome = true

/-- A concrete fresh entry, used by the witnesses. -/
def exEntryCat : Entry :=
  { word_text := "Cat"
    english_meaning := "a feline"
    synonyms := "kitty"
    correct_attempts := 0
    total_attempts := 0
    ows_attempted := false
    syno_attempted := false }

/-- A one-document store, used by the witnesses. -/
def exStoreCat : Store := [("Cat", exEntryCat)]

/-- A concrete accepted import row whose synonym part ends in a space. -/
def exRowAbate : Row := ["1", "Abate(V)", "lessen \nto diminish"]

/-- What `parseRow` produces on `exRowAbate`. -/
def exParsedAbate : ParsedRow := ⟨"Abate", "lessen", "to diminish"⟩

/-- A store already containing the word of `exRowAbate`. -/
def exStoreAbate : Store := [("Abate", newEntry exParsedAbate)]

/-- An entry whose synonyms field starts with the placeholder literal but
does not equal it: the synonym-quiz fallback fires although claim C5's
stated condition does not hold. -/
def entrySynTrap : Entry :=
  { word_text := "Gloom"
    english_meaning := "sad"
    synonyms := "No synonyms provided, happy"
    correct_attempts := 0
    total_attempts := 0
    ows_attempted := false
    syno_attempted := false }

/-- Remove trailing whitespace; `stripChars` is this composed with a leading
`dropWhile` (proof helper for reasoning about `pyStrip`). -/
def trimRight (l : List Char) : List Char :=
  (l.reverse.dropWhile pyIsSpace).reverse

/-- A concrete accepted import row with a space before and a newline after
the meaning cell's line break: the inputs on which claim C3's unstripped
reading of the split diverges from the program. -/
def exRowTrail : Row := ["1", "Abate(V)", "lessen \nto diminish\n"]

/-- A session state holding options cached for question index 0. -/
def stCached : SessionState :=
  { active_set_label := "Set 1: Abate to Cat [⏳ Pending]"
    current_index := 0
    answered := false
    selected_option := none
    current_options := ["w", "x", "y", "z"]
    correct_ans := "w"
    options_generated_for := some 0 }

/-! ## Lemmas about the store -/

theorem lookup_append_of_some {l l' : Store} {k : String} {v : Entry}
    (h : l.lookup k = some v) : (l ++ l').lookup k = some v := by
  induction l with
  | nil => simp [List.lookup] at h
  | cons kv rest ih =>
    cases kv with
    | mk a b =>
      rw [List.cons_append]
      by_cases hk : k = a
      · subst hk
        simp only [List.lookup, beq_self_eq_true] at h ⊢
        exact h
      · have hb : (k == a) = false := beq_eq_false_iff_ne.mpr hk
        simp only [List.lookup, hb] at h ⊢
        exact ih h

theorem lookup_append_of_none {l l' : Store} {k : String}
    (h : l.lookup k = none) : (l ++ l').lookup k = l'.lookup k := by
  induction l with
  | nil => simp
  | cons kv rest ih =>
    cases kv with
    | mk a b =>
      rw [List.cons_append]
      by_cases hk : k = a
      · subst hk
        simp only [List.lookup, beq_self_eq_true] at h
        exact absurd h (by simp)
      · have hb : (k == a) = false := beq_eq_false_iff_ne.mpr hk
        simp only [List.lookup, hb] at h ⊢
        exact ih h

theorem lookup_map_update (l : Store) (w : String) (f : Entry → Entry) :
    List.lookup w (l.map fun kv =>
        if kv.1 = w then (kv.1, f kv.2) else kv) =
      (List.lookup w l).map f := by
  induction l with
  | nil => rfl
  | cons kv rest ih =>
    cases kv with
    | mk a b =>
      by_cases h : a = w
      · subst h
        simp only [List.map, if_pos rfl]
        simp only [List.lookup, beq_self_eq_true]
        rfl
      · have hb : (w == a) = false := beq_eq_false_iff_ne.mpr (Ne.symm h)
        simp only [List.map, if_neg h]
        simp only [List.lookup, hb]
        exact ih

/-! ## Lemmas about recorded answers -/

theorem recordMany_cons (cq : Bool × QuizType) (l : List (Bool × QuizType))
    (e : Entry) :
    recordMany (cq :: l) e = recordMany l (recordAnswer cq.1 cq.2 e) := rfl

theorem recordMany_total : ∀ (l : List (Bool × QuizType)) (e : Entry),
    (recordMany l e).total_attempts = e.total_attempts + l.length := by
  intro l
  induction l with
  | nil => intro e; rfl
  | cons cq rest ih =>
    intro e
    rw [recordMany_cons, ih]
    simp [recordAnswer]
    omega

theorem recordMany_correct_le : ∀ (l : List (Bool × QuizType)) (e : Entry),
    (recordMany l e).correct_attempts ≤ e.correct_attempts + l.length := by
  intro l
  induction l with
  | nil => intro e; simp [recordMany]
  | cons cq rest ih =>
    intro e
    rw [recordMany_cons]
    refine le_trans (ih _) ?_
    have hstep : (recordAnswer cq.1 cq.2 e).correct_attempts ≤
        e.correct_attempts + 1 := by
      cases hc : cq.1 <;> simp [recordAnswer, hc]
    simp only [List.length_cons]
    omega

/-- Claim C1: for an existing entry, `update_score` stores the entry with
`total_attempts` incremented by exactly 1, `correct_attempts` incremented by
1 exactly when the answer was correct, and the `{quiz_type}_attempted` flag
set to true; after `N` recorded answers starting from a fresh entry,
`total_attempts = N` and `correct_attempts ≤ N`; and no recorded answer
decreases either counter. -/
theorem claim_C1 :
    (∀ (db : Store) (w : String) (c : Bool) (q : QuizType) (e : Entry),
      db.lookup w = some e →
        (update_score db w c q).lookup w = some (recordAnswer c q e) ∧
        (recordAnswer c q e).total_attempts = e.total_attempts + 1 ∧
        (recordAnswer c q e).correct_attempts =
          e.correct_attempts + (if c then 1 else 0) ∧
        attemptedFlag q (recordAnswer c q e) = true) ∧
    (∀ (l : List (Bool × QuizType)) (e : Entry),
      e.total_attempts = 0 → e.correct_attempts = 0 →
        (recordMany l e).total_attempts = l.length ∧
        (recordMany l e).correct_attempts ≤ l.length) ∧
    (∀ (c : Bool) (q : QuizType) (e : Entry),
      e.total_attempts ≤ (recordAnswer c q e).total_attempts ∧
      e.correct_attempts ≤ (recordAnswer c q e).correct_attempts) := by
  refine ⟨?_, ?_, ?_⟩
  · intro db w c q e h
    refine ⟨?_, rfl, rfl, ?_⟩
    · rw [update_score, h]
      rw [lookup_map_update, h]
      rfl
    · cases q <;> rfl
  · intro l e ht hc
    constructor
    · rw [recordMany_total, ht]
      omega
    · refine le_trans (recordMany_correct_le l e) ?_
      rw [hc]
      omega
  · intro c q e
    constructor
    · simp [recordAnswer]
    · simp [recordAnswer]

/-- Witness for claim C1 at a concrete store and entry. -/
theorem claim_C1_witness :
    (update_score exStoreCat "Cat" true .ows).lookup "Cat" =
        some (recordAnswer true .ows exEntryCat) ∧
      (recordMany [(true, .ows), (false, .syno)] exEntryCat).total_attempts
        = 2 := by
  constructor
  · exact (claim_C1.1 exStoreCat "Cat" true .ows exEntryCat (by decide)).1
  · exact (claim_C1.2.1 [(true, .ows), (false, .syno)] exEntryCat
      (by decide) (by decide)).1

/-- Claim C8: `update_score` on a word with no document in the collection is
a silent no-op — the store is returned completely unchanged. -/
theorem claim_C8 :
    ∀ (db : Store) (w : String) (c : Bool) (q : QuizType),
      db.lookup w = none → update_score db w c q = db := by
  intro db w c q h
  rw [update_score, h]

/-- Witness for claim C8 at a concrete store and missing key. -/
theorem claim_C8_witness :
    update_score exStoreCat "Dog" true .ows = exStoreCat :=
  claim_C8 exStoreCat "Dog" true .ows (by decide)

/-! ## Lemmas about the import pipeline -/

theorem processRow_covers (s : Store) (row : Row) :
    coveredRow (processRow s row).1 row := by
  intro p hp
  unfold processRow
  simp only [hp]
  cases hl : s.lookup p.word_clean with
  | some e => simp [hl]
  | none =>
    simp only [hl]
    rw [lookup_append_of_none hl]
    simp [List.lookup]

theorem importFold_cons (row : Row) (rest : List Row) (s : Store) :
    importFold (row :: rest) s =
      ((importFold rest (processRow s row).1).1,
        (processRow s row).2 + (importFold rest (processRow s row).1).2) :=
  rfl

theorem importFold_lookup_mono :
    ∀ (rows : List Row) (s : Store) (k : String) (v : Entry),
      s.lookup k = some v → (importFold rows s).1.lookup k = some v := by
  intro rows
  induction rows with
  | nil => intro s k v h; exact h
  | cons row rest ih =>
    intro s k v h
    rw [importFold_cons]
    refine ih _ k v ?_
    unfold processRow
    cases hp : parseRow row with
    | none => simp only [hp]; exact h
    | some p =>
      simp only [hp]
      cases hl : s.lookup p.word_clean with
      | some e => simp only [hl]; exact h
      | none => simp only [hl]; exact lookup_append_of_some h

theorem importFold_covers :
    ∀ (rows : List Row) (s : Store) (r : Row),
      r ∈ rows → coveredRow (importFold rows s).1 r := by
  intro rows
  induction rows with
  | nil => intro s r hr; cases hr
  | cons row rest ih =>
    intro s r hr
    rw [importFold_cons]
    rcases List.mem_cons.mp hr with h | h
    · subst h
      intro p hp
      have hc := processRow_covers s r p hp
      cases hl : (processRow s r).1.lookup p.word_clean with
      | none => rw [hl] at hc; exact absurd hc (by simp)
      | some v =>
        have hm := importFold_lookup_mono rest (processRow s r).1
          p.word_clean v hl
        simp [hm]
    · exact ih (processRow s row).1 r h

theorem importFold_absorb :
    ∀ (rows : List Row) (s : Store),
      (∀ r ∈ rows, coveredRow s r) → importFold rows s = (s, 0) := by
  intro rows
  induction rows with
  | nil => intro s _; rfl
  | cons row rest ih =>
    intro s h
    have h1 : processRow s row = (s, 0) := by
      unfold processRow
      cases hp : parseRow row with
      | none => simp only [hp]
      | some p =>
        simp only [hp]
        have hcov := h row (List.mem_cons_self row rest) p hp
        cases hl : s.lookup p.word_clean with
        | none => rw [hl] at hcov; exact absurd hcov (by simp)
        | some e => simp only [hl]
    rw [importFold_cons, h1]
    have h2 := ih s (fun r hr => h r (List.mem_cons_of_mem row hr))
    simp [h2]

theorem importFold_reimport (rows : List Row) (s : Store) :
    importFold rows (importFold rows s).1 = ((importFold rows s).1, 0) :=
  importFold_absorb rows _ (fun r hr => importFold_covers rows s r hr)

theorem importTable_eq_tail (t : List Row) (s : Store) :
    importTable t s = importFold t.tail s := by
  cases t with
  | nil => rfl
  | cons r rest => rfl

theorem importFold_append :
    ∀ (a b : List Row) (s : Store),
      importFold (a ++ b) s =
        ((importFold b (importFold a s).1).1,
          (importFold a s).2 + (importFold b (importFold a s).1).2) := by
  intro a
  induction a with
  | nil => intro b s; simp [importFold]
  | cons r rest ih =>
    intro b s
    rw [List.cons_append]
    simp only [importFold_cons, ih]
    simp [Nat.add_assoc]

theorem importPDF_cons (t : List Row) (rest : List (List Row)) (s : Store) :
    importPDF (t :: rest) s =
      ((importPDF rest (importTable t s).1).1,
        (importTable t s).2 + (importPDF rest (importTable t s).1).2) :=
  rfl

theorem importPDF_eq_fold :
    ∀ (pdf : List (List Row)) (s : Store),
      importPDF pdf s = importFold (pdf.map List.tail).flatten s := by
  intro pdf
  induction pdf with
  | nil => intro s; rfl
  | cons t rest ih =>
    intro s
    rw [importPDF_cons]
    simp only [List.map_cons, List.flatten_cons]
    rw [importFold_append]
    simp only [importTable_eq_tail, ih]

/-- Claim C2: inserting an already-present word is a silent no-op (store and
added count unchanged), and re-importing the very same PDF a second time
reports an added count of 0 and leaves the store — hence the number of
entries — unchanged. -/
theorem claim_C2 :
    (∀ (s : Store) (row : Row) (p : ParsedRow) (e : Entry),
      parseRow row = some p → s.lookup p.word_clean = some e →
        processRow s row = (s, 0)) ∧
    (∀ (pdf : List (List Row)) (s : Store),
      importPDF pdf (importPDF pdf s).1 = ((importPDF pdf s).1, 0)) := by
  constructor
  · intro s row p e hp hl
    unfold processRow
    simp only [hp, hl]
  · intro pdf s
    rw [importPDF_eq_fold, importPDF_eq_fold]
    exact importFold_reimport (pdf.map List.tail).flatten s

/-- Witness for claim C2: a concrete present word is not re-written. -/
theorem claim_C2_witness :
    processRow exStoreAbate exRowAbate = (exStoreAbate, 0) :=
  claim_C2.1 exStoreAbate exRowAbate exParsedAbate (newEntry exParsedAbate)
    (by decide) (by decide)

/-- Claim C7: a data row with fewer than 3 cells, or whose second cell is
empty or the literal header text "Word (POS)", is skipped: the store is
unchanged and the row contributes 0 to the added count (and the processing
functions are total, so no error is surfaced). -/
theorem claim_C7 :
    ∀ (s : Store) (row : Row),
      (row.length < 3 ∨ row.getD 1 "" = "" ∨ row.getD 1 "" = "Word (POS)") →
      processRow s row = (s, 0) := by
  intro s row h
  have hp : parseRow row = none := by
    unfold parseRow
    by_cases h3 : row.length < 3
    · rw [if_pos h3]
    · rw [if_neg h3]
      rcases h with h | h | h
      · exact absurd h h3
      · rw [h]
        have hs : pyStrip "" = "" := by decide
        simp [hs]
      · rw [h]
        have hs : pyStrip "Word (POS)" = "Word (POS)" := by decide
        simp [hs]
  unfold processRow
  simp only [hp]

/-- Witness for claim C7 at a concrete header row. -/
theorem claim_C7_witness :
    processRow exStoreCat ["1", "Word (POS)", "m"] = (exStoreCat, 0) :=
  claim_C7 exStoreCat ["1", "Word (POS)", "m"] (by decide)

/-- Claim C9: a newly imported word is stored with both counters 0 and both
attempted flags false, so `correct_attempts ≤ total_attempts` holds from
creation and a nonempty set made of fresh entries gets the pending status. -/
theorem claim_C9 :
    (∀ (s : Store) (row : Row) (p : ParsedRow),
      parseRow row = some p → s.lookup p.word_clean = none →
        processRow s row = (s ++ [(p.word_clean, newEntry p)], 1) ∧
        (newEntry p).correct_attempts = 0 ∧
        (newEntry p).total_attempts = 0 ∧
        (newEntry p).ows_attempted = false ∧
        (newEntry p).syno_attempted = false ∧
        (newEntry p).correct_attempts ≤ (newEntry p).total_attempts) ∧
    (∀ (q : QuizType) (l : List Entry),
      l ≠ [] → (∀ e ∈ l, attemptedFlag q e = false) →
        setStatus q l = "⏳ Pending") := by
  constructor
  · intro s row p hp hl
    refine ⟨?_, rfl, rfl, rfl, rfl, Nat.le_refl 0⟩
    unfold processRow
    simp only [hp, hl]
  · intro q l hne hall
    unfold setStatus
    cases l with
    | nil => exact absurd rfl hne
    | cons e rest =>
      have he : attemptedFlag q e = false := hall e (List.mem_cons_self e rest)
      have hfalse : (e :: rest).all (fun w => attemptedFlag q w) = false := by
        simp [List.all_cons, he]
      rw [hfalse]
      simp

/-- Witness for claim C9 at a concrete fresh import. -/
theorem claim_C9_witness :
    processRow [] exRowAbate =
        ([("Abate", newEntry exParsedAbate)], 1) ∧
      setStatus .ows [newEntry exParsedAbate] = "⏳ Pending" := by
  constructor
  · exact (claim_C9.1 [] exRowAbate exParsedAbate (by decide) (by decide)).1
  · exact claim_C9.2 .ows [newEntry exParsedAbate] (by decide)
      (by intro e he; simp at he; rw [he]; rfl)

/-! ## Lemmas about `pyStrip`, `pySplitChar` and `beforeFirst` -/

theorem dropWhile_dropWhile_self {α : Type} (p : α → Bool) (l : List α) :
    List.dropWhile p (List.dropWhile p l) = List.dropWhile p l := by
  induction l with
  | nil => rfl
  | cons c t ih =>
    by_cases h : p c
    · simp [List.dropWhile_cons, h, ih]
    · simp [List.dropWhile_cons, h]

theorem dropWhile_append_of_ne_nil {α : Type} {p : α → Bool} {a : List α}
    (b : List α) (h : List.dropWhile p a ≠ []) :
    List.dropWhile p (a ++ b) = List.dropWhile p a ++ b := by
  induction a with
  | nil => exact absurd rfl h
  | cons c t ih =>
    by_cases hc : p c
    · rw [List.dropWhile_cons_of_pos hc] at h
      simp [List.dropWhile_cons, hc, ih h]
    · simp [List.dropWhile_cons, hc]

theorem dropWhile_append_of_nil {α : Type} {p : α → Bool} {a : List α}
    (b : List α) (h : List.dropWhile p a = []) :
    List.dropWhile p (a ++ b) = List.dropWhile p b := by
  induction a with
  | nil => rfl
  | cons c t ih =>
    by_cases hc : p c
    · rw [List.dropWhile_cons_of_pos hc] at h
      simp [List.dropWhile_cons, hc, ih h]
    · rw [List.dropWhile_cons_of_neg hc] at h
      exact absurd h (by simp)

theorem head?_dropWhile_not {α : Type} {p : α → Bool} {l : List α} {a : α}
    (h : (List.dropWhile p l).head? = some a) : p a = false := by
  induction l with
  | nil => simp [List.dropWhile] at h
  | cons c t ih =>
    by_cases hc : p c
    · rw [List.dropWhile_cons_of_pos hc] at h
      exact ih h
    · rw [List.dropWhile_cons_of_neg hc] at h
      simp at h
      rw [← h]
      simp [hc]

theorem dropWhile_eq_self_of_head? {α : Type} {p : α → Bool} {l : List α}
    (h : ∀ a, l.head? = some a → p a = false) :
    List.dropWhile p l = l := by
  cases l with
  | nil => rfl
  | cons c t =>
    have := h c rfl
    simp [List.dropWhile_cons, this]

theorem dropWhile_eq_nil_imp_all {α : Type} {p : α → Bool} {l : List α}
    (h : List.dropWhile p l = []) : ∀ c ∈ l, p c = true := by
  induction l with
  | nil => intro c hc; cases hc
  | cons c t ih =>
    by_cases hc : p c
    · rw [List.dropWhile_cons_of_pos hc] at h
      intro x hx
      rcases List.mem_cons.mp hx with hx | hx
      · rw [hx]; exact hc
      · exact ih h x hx
    · rw [List.dropWhile_cons_of_neg hc] at h
      exact absurd h (by simp)

theorem takeWhile_eq_self_of_all {α : Type} {q : α → Bool} {l : List α}
    (h : ∀ c ∈ l, q c = true) : List.takeWhile q l = l := by
  induction l with
  | nil => rfl
  | cons c t ih =>
    have hc := h c (List.mem_cons_self c t)
    rw [List.takeWhile_cons_of_pos hc]
    rw [ih (fun x hx => h x (List.mem_cons_of_mem c hx))]

theorem trimRight_idem (l : List Char) :
    trimRight (trimRight l) = trimRight l := by
  unfold trimRight
  rw [List.reverse_reverse, dropWhile_dropWhile_self]

theorem trimRight_cons (c : Char) (t : List Char) :
    trimRight (c :: t) =
      if trimRight t = [] then (if pyIsSpace c then [] else [c])
      else c :: trimRight t := by
  unfold trimRight
  rw [List.reverse_cons]
  by_cases h : List.dropWhile pyIsSpace t.reverse = []
  · rw [dropWhile_append_of_nil [c] h]
    rw [h]
    simp only [List.reverse_nil, if_pos rfl]
    by_cases hc : pyIsSpace c
    · simp [List.dropWhile, hc]
    · simp [List.dropWhile, hc]
  · rw [dropWhile_append_of_ne_nil [c] h]
    have hne : (List.dropWhile pyIsSpace t.reverse).reverse ≠ [] := by
      simp [h]
    rw [if_neg hne]
    simp

theorem head?_trimRight {l : List Char} (h : trimRight l ≠ []) :
    (trimRight l).head? = l.head? := by
  induction l with
  | nil => exact absurd rfl h
  | cons c t ih =>
    rw [trimRight_cons] at h ⊢
    by_cases ht : trimRight t = []
    · rw [if_pos ht] at h ⊢
      by_cases hc : pyIsSpace c
      · rw [if_pos hc] at h
        exact absurd rfl h
      · rw [if_neg hc]
        rfl
    · rw [if_neg ht]
      rfl

theorem takeWhile_dropWhile_comm {α : Type} {p q : α → Bool}
    (hpq : ∀ a, p a = true → q a = true) :
    ∀ l : List α,
      List.takeWhile q (List.dropWhile p l) =
        List.dropWhile p (List.takeWhile q l) := by
  intro l
  induction l with
  | nil => rfl
  | cons c t ih =>
    by_cases hc : p c
    · rw [List.dropWhile_cons_of_pos hc,
        List.takeWhile_cons_of_pos (hpq c hc),
        List.dropWhile_cons_of_pos hc]
      exact ih
    · rw [List.dropWhile_cons_of_neg hc]
      by_cases hq : q c
      · rw [List.takeWhile_cons_of_pos hq, List.dropWhile_cons_of_neg hc]
      · rw [List.takeWhile_cons_of_neg hq]
        rfl

theorem trimRight_takeWhile_trimRight {q : Char → Bool}
    (hq : ∀ c, pyIsSpace c = true → q c = true) :
    ∀ l : List Char,
      trimRight (List.takeWhile q (trimRight l)) =
        trimRight (List.takeWhile q l) := by
  intro l
  induction l with
  | nil => rfl
  | cons c t ih =>
    rw [trimRight_cons]
    by_cases ht : trimRight t = []
    · rw [if_pos ht]
      have hrev : List.dropWhile pyIsSpace t.reverse = [] := by
        unfold trimRight at ht
        simpa using congrArg List.reverse ht
      have hall : ∀ x ∈ t, pyIsSpace x = true := fun x hx =>
        dropWhile_eq_nil_imp_all hrev x (by simp [hx])
      have htake : List.takeWhile q t = t :=
        takeWhile_eq_self_of_all (fun x hx => hq x (hall x hx))
      by_cases hc : pyIsSpace c
      · rw [if_pos hc]
        rw [List.takeWhile_cons_of_pos (hq c hc), htake]
        rw [trimRight_cons, if_pos ht, if_pos hc]
        rfl
      · rw [if_neg hc]
        by_cases hqc : q c
        · have h1 : List.takeWhile q [c] = [c] := by
            simp [List.takeWhile_cons_of_pos hqc]
          have hL : trimRight (List.takeWhile q [c]) = [c] := by
            rw [h1]
            simp [trimRight, List.dropWhile_cons_of_neg hc]
          have hR : trimRight (List.takeWhile q (c :: t)) = [c] := by
            rw [List.takeWhile_cons_of_pos hqc, htake, trimRight_cons,
              if_pos ht, if_neg hc]
          rw [hL, hR]
        · rw [List.takeWhile_cons_of_neg hqc, List.takeWhile_cons_of_neg hqc]
    · rw [if_neg ht]
      by_cases hqc : q c
      · rw [List.takeWhile_cons_of_pos hqc, List.takeWhile_cons_of_pos hqc,
          trimRight_cons, trimRight_cons, ih]
      · rw [List.takeWhile_cons_of_neg hqc, List.takeWhile_cons_of_neg hqc]

theorem head?_takeWhile {α : Type} {q : α → Bool} {l : List α} {a : α}
    (h : (List.takeWhile q l).head? = some a) : l.head? = some a := by
  cases l with
  | nil => simp [List.takeWhile] at h
  | cons c t =>
    by_cases hc : q c
    · rw [List.takeWhile_cons_of_pos hc] at h
      simp at h
      simp [h]
    · rw [List.takeWhile_cons_of_neg hc] at h
      simp at h

theorem stripChars_eq (l : List Char) :
    stripChars l = trimRight (l.dropWhile pyIsSpace) := rfl

theorem stripChars_takeWhile_stripChars {q : Char → Bool}
    (hq : ∀ c, pyIsSpace c = true → q c = true) (l : List Char) :
    stripChars (List.takeWhile q (stripChars l)) =
      stripChars (List.takeWhile q l) := by
  rw [stripChars_eq l, stripChars_eq, stripChars_eq]
  have hA : List.dropWhile pyIsSpace (List.takeWhile q l) =
      List.takeWhile q (List.dropWhile pyIsSpace l) :=
    (takeWhile_dropWhile_comm hq l).symm
  rw [hA]
  have hid : List.dropWhile pyIsSpace
      (List.takeWhile q (trimRight (List.dropWhile pyIsSpace l))) =
        List.takeWhile q (trimRight (List.dropWhile pyIsSpace l)) := by
    refine dropWhile_eq_self_of_head? ?_
    intro a ha
    have hz : (trimRight (List.dropWhile pyIsSpace l)).head? = some a :=
      head?_takeWhile ha
    have hne : trimRight (List.dropWhile pyIsSpace l) ≠ [] := by
      intro h0
      rw [h0] at hz
      simp at hz
    rw [head?_trimRight hne] at hz
    exact head?_dropWhile_not hz
  rw [hid]
  exact trimRight_takeWhile_trimRight hq (List.dropWhile pyIsSpace l)

theorem stripChars_idem (l : List Char) :
    stripChars (stripChars l) = stripChars l := by
  rw [stripChars_eq l, stripChars_eq]
  have hid : List.dropWhile pyIsSpace
      (trimRight (List.dropWhile pyIsSpace l)) =
        trimRight (List.dropWhile pyIsSpace l) := by
    refine dropWhile_eq_self_of_head? ?_
    intro a ha
    have hne : trimRight (List.dropWhile pyIsSpace l) ≠ [] := by
      intro h0
      rw [h0] at ha
      simp at ha
    rw [head?_trimRight hne] at ha
    exact head?_dropWhile_not ha
  rw [hid, trimRight_idem]

theorem pyStrip_idem (s : String) : pyStrip (pyStrip s) = pyStrip s :=
  congrArg String.mk (stripChars_idem s.data)

theorem pyStrip_beforeFirst {sep : Char} (hsep : pyIsSpace sep = false)
    (s : String) :
    pyStrip (beforeFirst sep (pyStrip s)) = pyStrip (beforeFirst sep s) := by
  refine congrArg String.mk ?_
  refine stripChars_takeWhile_stripChars ?_ s.data
  intro c hc
  have hne : ¬ (c = sep) := by
    intro h
    rw [h, hsep] at hc
    cases hc
  simpa using hne

theorem splitCharList_ne_nil (sep : Char) :
    ∀ l : List Char, splitCharList sep l ≠ [] := by
  intro l
  cases l with
  | nil => simp [splitCharList]
  | cons c t =>
    unfold splitCharList
    by_cases h : c = sep
    · simp [h]
    · simp only [if_neg h]
      cases hs : splitCharList sep t with
      | nil => simp
      | cons a b => simp

theorem headD_splitCharList (sep : Char) :
    ∀ l : List Char,
      (splitCharList sep l).headD [] = l.takeWhile (fun c => ¬ (c = sep)) := by
  intro l
  induction l with
  | nil => rfl
  | cons c t ih =>
    unfold splitCharList
    by_cases h : c = sep
    · rw [if_pos h]
      simp [List.takeWhile_cons, h]
    · rw [if_neg h]
      cases hs : splitCharList sep t with
      | nil => exact absurd hs (splitCharList_ne_nil sep t)
      | cons a b =>
        have ha : a = t.takeWhile (fun c => ¬ (c = sep)) := by
          rw [hs] at ih
          simpa using ih
        simp [List.takeWhile_cons, h, ha]

theorem pySplitChar_headD (sep : Char) (s : String) :
    (pySplitChar sep s).headD "" = beforeFirst sep s := by
  unfold pySplitChar beforeFirst
  cases hs : splitCharList sep s.data with
  | nil => exact absurd hs (splitCharList_ne_nil sep s.data)
  | cons a b =>
    have ha := headD_splitCharList sep s.data
    rw [hs] at ha
    simp at ha
    simp [ha]

/-- Counterexample to claim C3 as stated: on a meaning cell with a space
before its newline and a trailing newline, the program strips the cell before
splitting and strips each part, so the stored synonyms and meaning differ
from the claim's raw first part and raw rejoined remainder. -/
theorem claim_C3_counterexample :
    parseRow exRowTrail = some exParsedAbate ∧
    claimSplitMeaning (exRowTrail.getD 2 "") = ("lessen ", "to diminish ") ∧
    ¬ (exParsedAbate.synonyms = "lessen ") ∧
    ¬ (exParsedAbate.english_meaning = "to diminish ") := by
  decide

/-- Claim C3 amended: for every accepted row, the stored word is the part of
the second cell before the first parenthesis, whitespace-stripped; the
newline split is applied to the whitespace-stripped third cell, and with at
least 2 parts the synonyms are the whitespace-stripped first part and the
meaning is the remaining parts rejoined with spaces and whitespace-stripped;
with fewer than 2 parts the synonyms are the literal "No synonyms provided"
and the meaning is the whole whitespace-stripped cell. -/
theorem claim_C3_amended :
    ∀ (row : Row) (p : ParsedRow),
      parseRow row = some p →
        p.word_clean = pyStrip (beforeFirst '(' (row.getD 1 "")) ∧
        (2 ≤ (pySplitChar '\n' (pyStrip (row.getD 2 ""))).length →
          p.synonyms =
            pyStrip ((pySplitChar '\n' (pyStrip (row.getD 2 ""))).headD "") ∧
          p.english_meaning =
            pyStrip (pyJoin " "
              (pySplitChar '\n' (pyStrip (row.getD 2 ""))).tail)) ∧
        (¬ 2 ≤ (pySplitChar '\n' (pyStrip (row.getD 2 ""))).length →
          p.synonyms = "No synonyms provided" ∧
          p.english_meaning = pyStrip (row.getD 2 "")) := by
  intro row p hp
  unfold parseRow at hp
  by_cases h1 : row.length < 3
  · rw [if_pos h1] at hp
    exact absurd hp (by simp)
  · rw [if_neg h1] at hp
    by_cases h2 : pyStrip (row.getD 1 "") = "" ∨
        pyStrip (row.getD 1 "") = "Word (POS)"
    · rw [if_pos h2] at hp
      exact absurd hp (by simp)
    · rw [if_neg h2] at hp
      have hp2 := Option.some.inj hp
      subst hp2
      refine ⟨?_, ?_, ?_⟩
      · show pyStrip ((pySplitChar '(' (pyStrip (row.getD 1 ""))).headD "")
          = _
        rw [pySplitChar_headD]
        exact pyStrip_beforeFirst (by decide) (row.getD 1 "")
      · intro hlen
        show (splitMeaning (pyStrip (row.getD 2 ""))).1 = _ ∧
          (splitMeaning (pyStrip (row.getD 2 ""))).2 = _
        unfold splitMeaning
        rw [if_pos hlen]
        exact ⟨rfl, rfl⟩
      · intro hlen
        show (splitMeaning (pyStrip (row.getD 2 ""))).1 = _ ∧
          (splitMeaning (pyStrip (row.getD 2 ""))).2 = _
        unfold splitMeaning
        rw [if_neg hlen]
        exact ⟨rfl, pyStrip_idem (row.getD 2 "")⟩

/-- Witness for the amended claim C3 at a concrete row. -/
theorem claim_C3_amended_witness :
    exParsedAbate.word_clean =
      pyStrip (beforeFirst '(' (exRowAbate.getD 1 "")) :=
  (claim_C3_amended exRowAbate exParsedAbate (by decide)).1

/-! ## The synonym-quiz correct answer -/

theorem getD_mod_mem {l : List String} (h : l ≠ []) (r : Nat) :
    l.getD (r % l.length) "" ∈ l := by
  have hlen : 0 < l.length := List.length_pos.mpr h
  have hlt : r % l.length < l.length := Nat.mod_lt r hlen
  rw [List.getD_eq_getElem l "" hlt]
  exact List.getElem_mem hlt

/-- Counterexample to claim C5 as stated: an entry whose synonyms field is
neither empty nor the placeholder literal, but for which the program still
answers with the english meaning (which is in neither reading of the
comma-split list), because the check is on the first comma-split item. -/
theorem claim_C5_counterexample :
    ¬ (entrySynTrap.synonyms = "") ∧
    ¬ (entrySynTrap.synonyms = "No synonyms provided") ∧
    synCorrectAns 0 entrySynTrap = "sad" ∧
    entrySynTrap.english_meaning = "sad" ∧
    ¬ ("sad" ∈ pySplitChar ',' entrySynTrap.synonyms) ∧
    ¬ ("sad" ∈ (pySplitChar ',' entrySynTrap.synonyms).map pyStrip) := by
  decide

/-- Claim C5 amended: the fallback to the english meaning fires exactly when
the stripped, comma-split, nonempty-filtered synonym list is empty or its
first element is the literal "No synonyms provided"; otherwise the correct
answer is one element of that list.  (The claim's stated conditions — field
empty or field equal to the literal — imply the fallback, so that direction
of the claim is kept.) -/
theorem claim_C5_amended :
    ∀ (e : Entry) (r : Nat),
      ((e.synonyms = "" ∨ e.synonyms = "No synonyms provided") →
        synCorrectAns r e = e.english_meaning) ∧
      ((synList e = [] ∨ (synList e).headD "" = "No synonyms provided") →
        synCorrectAns r e = e.english_meaning) ∧
      (synList e ≠ [] →
        ¬ ((synList e).headD "" = "No synonyms provided") →
        synCorrectAns r e ∈ synList e) := by
  intro e r
  have hfall :
      (synList e = [] ∨ (synList e).headD "" = "No synonyms provided") →
        synCorrectAns r e = e.english_meaning := by
    intro h
    unfold synCorrectAns
    have hcond : ¬ (synList e ≠ [] ∧
        ¬ ((synList e).headD "" = "No synonyms provided")) := by
      rcases h with h | h
      · intro hc
        exact hc.1 h
      · intro hc
        exact hc.2 h
    rw [if_neg hcond]
  have hpick : synList e ≠ [] →
      ¬ ((synList e).headD "" = "No synonyms provided") →
        synCorrectAns r e ∈ synList e := by
    intro h1 h2
    unfold synCorrectAns
    rw [if_pos ⟨h1, h2⟩]
    exact getD_mod_mem h1 r
  refine ⟨?_, hfall, hpick⟩
  intro h
  refine hfall ?_
  rcases h with h | h
  · left
    unfold synList
    rw [h]
    decide
  · right
    unfold synList
    rw [h]
    decide

/-- Witness for the amended claim C5 at concrete entries. -/
theorem claim_C5_amended_witness :
    synCorrectAns 0 entrySynTrap = "sad" ∧
      synCorrectAns 1 exEntryCat ∈ synList exEntryCat := by
  constructor
  · exact (claim_C5_amended entrySynTrap 0).2.1 (by decide)
  · exact (claim_C5_amended exEntryCat 1).2.2 (by decide) (by decide)

/-! ## Option generation and the session cache -/

theorem maybeGenOptions_cached {st : SessionState}
    (h : st.options_generated_for = some st.current_index)
    (s1 s2 : Nat) (pool : List String) (c : String) :
    maybeGenOptions s1 s2 pool c st = st := by
  unfold maybeGenOptions
  rw [h]
  simp

/-- Claim C6: the generated option list always has exactly 4 elements and
contains the correct answer, for every outcome of the random sampling and
shuffling; the sampled decoys are `min(len(pool), 3)` distinct positions of
the pool, padded to exactly 3 with the literal "None of the above"; and when
the cached `options_generated_for` equals the current question index the
session state is left completely unchanged (no resampling). -/
theorem claim_C6 :
    (∀ (s1 s2 : Nat) (pool : List String) (c : String),
      (genOptions s1 s2 pool c).length = 4 ∧
      c ∈ genOptions s1 s2 pool c ∧
      (sample s1 pool (min pool.length 3)).length = min pool.length 3 ∧
      (∀ x ∈ sample s1 pool (min pool.length 3), x ∈ pool) ∧
      (padDecoys (sample s1 pool (min pool.length 3))).length = 3) ∧
    (∀ (st : SessionState) (s1 s2 : Nat) (pool : List String) (c : String),
      st.options_generated_for = some st.current_index →
        maybeGenOptions s1 s2 pool c st = st) := by
  constructor
  · intro s1 s2 pool c
    have hslen : (sample s1 pool (min pool.length 3)).length =
        min pool.length 3 := by
      unfold sample
      rw [List.length_take, List.length_rotate]
      exact Nat.min_eq_left (Nat.min_le_left pool.length 3)
    have hs3 : (sample s1 pool (min pool.length 3)).length ≤ 3 := by
      rw [hslen]
      exact Nat.min_le_right pool.length 3
    have hpad : (padDecoys (sample s1 pool (min pool.length 3))).length
        = 3 := by
      unfold padDecoys
      rw [List.length_append, List.length_replicate]
      omega
    refine ⟨?_, ?_, hslen, ?_, hpad⟩
    · unfold genOptions
      rw [List.length_rotate, List.length_append, hpad]
      rfl
    · unfold genOptions
      rw [List.mem_rotate]
      exact List.mem_append_right _ (List.mem_singleton.mpr rfl)
    · intro x hx
      unfold sample at hx
      exact List.mem_rotate.mp (List.mem_of_mem_take hx)
  · intro st s1 s2 pool c h
    exact maybeGenOptions_cached h s1 s2 pool c

/-- Witness for claim C6's cache at a concrete session state. -/
theorem claim_C6_witness :
    maybeGenOptions 0 0 [] "x" stCached = stCached :=
  claim_C6.2 stCached 0 0 [] "x" (by decide)

/-! ## Session resets on set switch and reattempt -/

/-- Claim C10: switching to a different practice set rewrites only the
active label, the question index (to 0) and the answered flag (to false);
the reattempt button rewrites only the index and the flag; cached
`current_options`, `correct_ans` and `options_generated_for` survive both,
so after a set switch with options cached for index 0 the first question of
the new set is rendered with the stale cached options and correct answer. -/
theorem claim_C10 :
    ∀ (st : SessionState) (lbl : String),
      ((¬ (st.active_set_label = lbl)) →
        (switchSet lbl st).active_set_label = lbl ∧
        (switchSet lbl st).current_index = 0 ∧
        (switchSet lbl st).answered = false) ∧
      (switchSet lbl st).current_options = st.current_options ∧
      (switchSet lbl st).correct_ans = st.correct_ans ∧
      (switchSet lbl st).options_generated_for = st.options_generated_for ∧
      (reattemptSet st).current_index = 0 ∧
      (reattemptSet st).answered = false ∧
      (reattemptSet st).active_set_label = st.active_set_label ∧
      (reattemptSet st).current_options = st.current_options ∧
      (reattemptSet st).correct_ans = st.correct_ans ∧
      (reattemptSet st).options_generated_for = st.options_generated_for ∧
      ((¬ (st.active_set_label = lbl)) → st.options_generated_for = some 0 →
        ∀ (s1 s2 : Nat) (pool : List String) (c : String),
          (maybeGenOptions s1 s2 pool c (switchSet lbl st)).current_options =
            st.current_options ∧
          (maybeGenOptions s1 s2 pool c (switchSet lbl st)).correct_ans =
            st.correct_ans) := by
  intro st lbl
  by_cases h : st.active_set_label = lbl
  · refine ⟨fun hne => absurd h hne, ?_, ?_, ?_, rfl, rfl, rfl, rfl, rfl,
      rfl, fun hne => absurd h hne⟩ <;>
      simp [switchSet, h]
  · refine ⟨fun _ => ?_, ?_, ?_, ?_, rfl, rfl, rfl, rfl, rfl, rfl, ?_⟩
    · simp [switchSet, h]
    · simp [switchSet, h]
    · simp [switchSet, h]
    · simp [switchSet, h]
    · intro _ hgen s1 s2 pool c
      have hcache : maybeGenOptions s1 s2 pool c (switchSet lbl st) =
          switchSet lbl st :=
        maybeGenOptions_cached (by simp [switchSet, h, hgen]) s1 s2 pool c
      rw [hcache]
      exact ⟨by simp [switchSet, h], by simp [switchSet, h]⟩

/-- Witness for claim C10 at a concrete session state and new label. -/
theorem claim_C10_witness :
    (maybeGenOptions 1 2 ["p", "q"] "z"
        (switchSet "Set 2: Dim to Fog [⏳ Pending]" stCached)).current_options
      = stCached.current_options := by
  have h := (claim_C10 stCached "Set 2: Dim to Fog [⏳ Pending]").2.2.2.2.2.2.2.2.2.2
  exact (h (by decide) (by decide) 1 2 ["p", "q"] "z").1

/-! ## The set-based quiz engine: sorting, chunking, labels -/

theorem pyLeCharList_trans :
    ∀ (xs ys zs : List Char), pyLeCharList xs ys = true →
      pyLeCharList ys zs = true → pyLeCharList xs zs = true := by
  intro xs
  induction xs with
  | nil => intro ys zs h1 h2; rfl
  | cons a t ih =>
    intro ys zs h1 h2
    cases ys with
    | nil => simp [pyLeCharList] at h1
    | cons b u =>
      cases zs with
      | nil => simp [pyLeCharList] at h2
      | cons c v =>
        unfold pyLeCharList at h1 h2 ⊢
        by_cases hab : a.toNat < b.toNat
        · rw [if_pos hab] at h1
          by_cases hbc : b.toNat < c.toNat
          · rw [if_pos (by omega : a.toNat < c.toNat)]
          · rw [if_neg hbc] at h2
            by_cases hcb : c.toNat < b.toNat
            · rw [if_pos hcb] at h2
              exact absurd h2 (by simp)
            · rw [if_pos (by omega : a.toNat < c.toNat)]
        · rw [if_neg hab] at h1
          by_cases hba : b.toNat < a.toNat
          · rw [if_pos hba] at h1
            exact absurd h1 (by simp)
          · rw [if_neg hba] at h1
            by_cases hbc : b.toNat < c.toNat
            · rw [if_pos (by omega : a.toNat < c.toNat)]
            · rw [if_neg hbc] at h2
              by_cases hcb : c.toNat < b.toNat
              · rw [if_pos hcb] at h2
                exact absurd h2 (by simp)
              · rw [if_neg hcb] at h2
                rw [if_neg (by omega : ¬ a.toNat < c.toNat),
                  if_neg (by omega : ¬ c.toNat < a.toNat)]
                exact ih u v h1 h2

theorem pyLeCharList_total :
    ∀ (xs ys : List Char),
      (pyLeCharList xs ys || pyLeCharList ys xs) = true := by
  intro xs
  induction xs with
  | nil => intro ys; rfl
  | cons a t ih =>
    intro ys
    cases ys with
    | nil => simp [pyLeCharList]
    | cons b u =>
      unfold pyLeCharList
      by_cases hab : a.toNat < b.toNat
      · simp [hab]
      · by_cases hba : b.toNat < a.toNat
        · simp [hab, hba]
        · rw [if_neg hab, if_neg hba, if_neg hba, if_neg hab]
          exact ih u

theorem wordLe_trans : ∀ (a b c : Entry), wordLe a b = true →
    wordLe b c = true → wordLe a c = true := by
  intro a b c h1 h2
  exact pyLeCharList_trans _ _ _ h1 h2

theorem wordLe_total : ∀ (a b : Entry), (wordLe a b || wordLe b a) = true := by
  intro a b
  exact pyLeCharList_total _ _

theorem chunks25_cons (l : List Entry) (h : l ≠ []) :
    chunks25 l = l.take 25 :: chunks25 (l.drop 25) := by
  cases l with
  | nil => exact absurd rfl h
  | cons a t => rw [chunks25]

theorem chunks25_nil_iff (l : List Entry) : chunks25 l = [] ↔ l = [] := by
  cases l with
  | nil => simp [chunks25]
  | cons a t =>
    rw [chunks25_cons (a :: t) (by simp)]
    simp

theorem chunks25_join_aux :
    ∀ (n : Nat) (l : List Entry), l.length ≤ n →
      (chunks25 l).flatten = l := by
  intro n
  induction n with
  | zero =>
    intro l h
    have hl : l = [] := List.eq_nil_of_length_eq_zero (Nat.le_zero.mp h)
    rw [hl]
    simp [chunks25]
  | succ n ih =>
    intro l h
    cases l with
    | nil => simp [chunks25]
    | cons a t =>
      rw [chunks25_cons (a :: t) (by simp), List.flatten_cons,
        ih ((a :: t).drop 25) (by
          simp only [List.length_drop, List.length_cons] at h ⊢
          omega)]
      exact List.take_append_drop 25 (a :: t)

theorem chunks25_shape_aux :
    ∀ (n : Nat) (l : List Entry), l.length ≤ n →
      ∀ c ∈ chunks25 l, c ≠ [] ∧ c.length ≤ 25 := by
  intro n
  induction n with
  | zero =>
    intro l h c hc
    have hl : l = [] := List.eq_nil_of_length_eq_zero (Nat.le_zero.mp h)
    rw [hl] at hc
    simp [chunks25] at hc
  | succ n ih =>
    intro l h c hc
    cases l with
    | nil => simp [chunks25] at hc
    | cons a t =>
      rw [chunks25_cons (a :: t) (by simp)] at hc
      rcases List.mem_cons.mp hc with hc | hc
      · subst hc
        constructor
        · intro h0
          have hlen0 : ((a :: t).take 25).length = 0 := by
            rw [h0]
            rfl
          rw [List.length_take] at hlen0
          simp only [List.length_cons] at hlen0
          omega
        · rw [List.length_take]
          exact Nat.min_le_left 25 _
      · exact ih ((a :: t).drop 25) (by
          simp only [List.length_drop, List.length_cons] at h ⊢
          omega) c hc

theorem chunks25_dropLast_aux :
    ∀ (n : Nat) (l : List Entry), l.length ≤ n →
      ∀ c ∈ (chunks25 l).dropLast, c.length = 25 := by
  intro n
  induction n with
  | zero =>
    intro l h c hc
    have hl : l = [] := List.eq_nil_of_length_eq_zero (Nat.le_zero.mp h)
    rw [hl] at hc
    simp [chunks25] at hc
  | succ n ih =>
    intro l h c hc
    cases l with
    | nil => simp [chunks25] at hc
    | cons a t =>
      rw [chunks25_cons (a :: t) (by simp)] at hc
      by_cases hrest : chunks25 ((a :: t).drop 25) = []
      · rw [hrest] at hc
        simp at hc
      · rw [List.dropLast_cons_of_ne_nil hrest] at hc
        rcases List.mem_cons.mp hc with hc | hc
        · subst hc
          have hd : (a :: t).drop 25 ≠ [] := by
            intro h0
            exact hrest (by rw [h0]; simp [chunks25])
          have hlen : 25 < (a :: t).length := by
            by_contra hle
            exact hd (List.drop_eq_nil_of_le (Nat.not_lt.mp hle))
          rw [List.length_take]
          simp only [List.length_cons] at hlen ⊢
          omega
        · exact ih ((a :: t).drop 25) (by
            simp only [List.length_drop, List.length_cons] at h ⊢
            omega) c hc

theorem attemptedFlag_clearFlag (q : QuizType) (e : Entry) :
    attemptedFlag q (clearFlag q e) = false := by
  cases q <;> rfl

theorem setStatus_attempted_iff (q : QuizType) (s : List Entry) :
    setStatus q s = "✅ Attempted" ↔ ∀ w ∈ s, attemptedFlag q w = true := by
  unfold setStatus
  by_cases h : s.all (fun w => attemptedFlag q w)
  · rw [if_pos h]
    rw [List.all_eq_true] at h
    exact iff_of_true rfl h
  · rw [if_neg h]
    have hnot : ¬ ∀ w ∈ s, attemptedFlag q w = true := by
      intro hall
      exact h (List.all_eq_true.mpr hall)
    exact iff_of_false (by decide) hnot

theorem setStatus_pending_of_ne {q : QuizType} {s : List Entry}
    (h : ¬ (setStatus q s = "✅ Attempted")) :
    setStatus q s = "⏳ Pending" := by
  unfold setStatus at h ⊢
  by_cases hall : s.all (fun w => attemptedFlag q w)
  · rw [if_pos hall] at h
    exact absurd rfl h
  · rw [if_neg hall]

theorem setStatus_flip (q : QuizType) (s : List Entry) (j : Nat)
    (h : j < s.length) :
    setStatus q (s.set j (clearFlag q (s.get ⟨j, h⟩))) = "⏳ Pending" := by
  unfold setStatus
  rw [if_neg]
  intro hall
  rw [List.all_eq_true] at hall
  have hlen : j < (s.set j (clearFlag q (s.get ⟨j, h⟩))).length := by
    rw [List.length_set]
    exact h
  have hmem := List.getElem_mem hlen
  rw [List.getElem_set_self] at hmem
  have := hall _ hmem
  rw [attemptedFlag_clearFlag] at this
  exact absurd this (by simp)

/-- Counterexample to claim C4 as stated: the program's set labels carry
emoji-prefixed statuses "✅ Attempted" / "⏳ Pending", not the claim's bare
"Attempted" / "Pending". -/
theorem claim_C4_counterexample :
    setLabel .ows 0 [exEntryCat] = "Set 1: Cat to Cat [⏳ Pending]" ∧
    claimSetLabel .ows 0 [exEntryCat] = "Set 1: Cat to Cat [Pending]" ∧
    ¬ (setLabel .ows 0 [exEntryCat] = claimSetLabel .ows 0 [exEntryCat]) := by
  decide

/-- Claim C4 amended: the quiz engine sorts all entries case-insensitively
(the fetched list is ordered by the lowercased word and is a permutation of
the stored entries), partitions them into contiguous chunks of exactly 25
with only the last chunk possibly shorter, and labels chunk n
"Set n: first to last [status]" where the status is "✅ Attempted" exactly
when every member's quiz-type attempted flag is true and "⏳ Pending"
otherwise; clearing any single member's flag forces "⏳ Pending". -/
theorem claim_C4_amended :
    (∀ (s : Store),
      List.Pairwise (fun a b => wordLe a b = true) (fetch_all_words s) ∧
      (fetch_all_words s).Perm (s.map Prod.snd)) ∧
    (∀ (l : List Entry),
      (chunks25 l).flatten = l ∧
      (∀ c ∈ chunks25 l, c ≠ [] ∧ c.length ≤ 25) ∧
      (∀ c ∈ (chunks25 l).dropLast, c.length = 25)) ∧
    (∀ (q : QuizType) (i : Nat) (c : List Entry),
      setLabel q i c =
        "Set " ++ toString (i + 1) ++ ": " ++ (c.headD default).word_text ++
          " to " ++ (c.getLastD default).word_text ++ " [" ++ setStatus q c
          ++ "]" ∧
      (setStatus q c = "✅ Attempted" ↔
        ∀ w ∈ c, attemptedFlag q w = true) ∧
      (¬ (setStatus q c = "✅ Attempted") →
        setStatus q c = "⏳ Pending")) ∧
    (∀ (q : QuizType) (c : List Entry) (j : Nat) (h : j < c.length),
      setStatus q (c.set j (clearFlag q (c.get ⟨j, h⟩))) = "⏳ Pending") := by
  refine ⟨?_, ?_, ?_, setStatus_flip⟩
  · intro s
    exact ⟨List.sorted_mergeSort wordLe_trans wordLe_total (s.map Prod.snd),
      List.mergeSort_perm (s.map Prod.snd) wordLe⟩
  · intro l
    exact ⟨chunks25_join_aux l.length l (Nat.le_refl _),
      chunks25_shape_aux l.length l (Nat.le_refl _),
      chunks25_dropLast_aux l.length l (Nat.le_refl _)⟩
  · intro q i c
    exact ⟨rfl, setStatus_attempted_iff q c, setStatus_pending_of_ne⟩

/-- Witness for the amended claim C4: flipping the flag of the only member
of a concrete singleton set yields the pending status. -/
theorem claim_C4_amended_witness :
    setStatus .ows
        ([exEntryCat].set 0 (clearFlag .ows ([exEntryCat].get ⟨0, by decide⟩)))
      = "⏳ Pending" :=
  claim_C4_amended.2.2.2 .ows [exEntryCat] 0 (by decide)
end SSC
